import Mathlib

/-!
Verification development for the stina-ext-openai repository.

JavaScript strings are modelled as `List Char`; JavaScript numbers that the
program treats as integers (token counts, expiry seconds, poll attempt
counters) are modelled as `Int`.  Fallible operations return `Option` or an
explicit result sum.  The platform primitive `JSON.parse` is modelled by an
executable recursive-descent parser over a `Json` value type; its numbers are
restricted to integer literals, which covers every numeric field the program
reads (usage counts, expiry seconds).
-/

namespace OpenAIExt

/-- JSON value model for the payloads the extension decodes.  Numbers are
modelled as integers (the program only ever reads integer-valued fields);
a literal with a fraction or exponent is outside the model and fails to
parse. -/
inductive Json where
  | null : Json
  | bool (b : Bool) : Json
  | num (n : Int) : Json
  | str (s : List Char) : Json
  | arr (elems : List Json) : Json
  | obj (fields : List (List Char × Json)) : Json

/-- Whitespace accepted between JSON tokens. -/
def isJsonWs (c : Char) : Bool :=
  c = ' ' || c = '\t' || c = '\n' || c = '\r'

/-- Skip leading JSON whitespace. -/
def skipWs (s : List Char) : List Char := s.dropWhile isJsonWs

/-- Value of one hexadecimal digit. -/
def hexVal (c : Char) : Option Nat :=
  if '0' ≤ c ∧ c ≤ '9' then some (c.toNat - '0'.toNat)
  else if 'a' ≤ c ∧ c ≤ 'f' then some (c.toNat - 'a'.toNat + 10)
  else if 'A' ≤ c ∧ c ≤ 'F' then some (c.toNat - 'A'.toNat + 10)
  else none

/-- Parse the body of a JSON string after the opening quote, handling the
standard escapes.  Returns the decoded characters and the remaining input. -/
def parseStringBody : Nat → List Char → Option (List Char × List Char)
  | 0, _ => none
  | _ + 1, [] => none
  | fuel + 1, c :: rest =>
    if c = '"' then some ([], rest)
    else if c = '\\' then
      match rest with
      | [] => none
      | e :: rest2 =>
        if e = 'u' then
          match rest2 with
          | h1 :: h2 :: h3 :: h4 :: rest3 =>
            match hexVal h1, hexVal h2, hexVal h3, hexVal h4 with
            | some v1, some v2, some v3, some v4 =>
              let code := ((v1 * 16 + v2) * 16 + v3) * 16 + v4
              (parseStringBody fuel rest3).map
                (fun r => (Char.ofNat code :: r.1, r.2))
            | _, _, _, _ => none
          | _ => none
        else
          let d : Option Char :=
            if e = '"' then some '"'
            else if e = '\\' then some '\\'
            else if e = '/' then some '/'
            else if e = 'n' then some '\n'
            else if e = 't' then some '\t'
            else if e = 'r' then some '\r'
            else if e = 'b' then some (Char.ofNat 8)
            else if e = 'f' then some (Char.ofNat 12)
            else none
          match d with
          | some dc => (parseStringBody fuel rest2).map (fun r => (dc :: r.1, r.2))
          | none => none
    else (parseStringBody fuel rest).map (fun r => (c :: r.1, r.2))

/-- Parse an integer JSON number (optional minus sign followed by digits).
Fractional or exponent forms are outside the model. -/
def parseNumber (s : List Char) : Option (Json × List Char) :=
  let p := match s with
    | '-' :: r => (true, r)
    | _ => (false, s)
  let digits := p.2.takeWhile Char.isDigit
  let rest := p.2.dropWhile Char.isDigit
  if digits.isEmpty then none
  else
    match rest with
    | '.' :: _ => none
    | 'e' :: _ => none
    | 'E' :: _ => none
    | _ =>
      let n : Int := digits.foldl (fun acc c => acc * 10 + (Int.ofNat (c.toNat - '0'.toNat))) 0
      some (Json.num (if p.1 then -n else n), rest)

mutual

/-- Recursive-descent JSON value parser (fuel-indexed). -/
def parseJsonF : Nat → List Char → Option (Json × List Char)
  | 0, _ => none
  | fuel + 1, s =>
    match skipWs s with
    | [] => none
    | c :: rest =>
      if c = '"' then (parseStringBody fuel rest).map (fun r => (Json.str r.1, r.2))
      else if c = 't' then
        if ['r', 'u', 'e'].isPrefixOf rest then some (Json.bool true, rest.drop 3) else none
      else if c = 'f' then
        if ['a', 'l', 's', 'e'].isPrefixOf rest then some (Json.bool false, rest.drop 4) else none
      else if c = 'n' then
        if ['u', 'l', 'l'].isPrefixOf rest then some (Json.null, rest.drop 3) else none
      else if c = '\x7b' then
        match skipWs rest with
        | '\x7d' :: rest2 => some (Json.obj [], rest2)
        | rest2 => (parseMembersF fuel rest2).map (fun r => (Json.obj r.1, r.2))
      else if c = '[' then
        match skipWs rest with
        | ']' :: rest2 => some (Json.arr [], rest2)
        | rest2 => (parseElemsF fuel rest2).map (fun r => (Json.arr r.1, r.2))
      else parseNumber (c :: rest)

/-- Parse the members of a JSON object after the opening brace. -/
def parseMembersF : Nat → List Char → Option (List (List Char × Json) × List Char)
  | 0, _ => none
  | fuel + 1, s =>
    match skipWs s with
    | '"' :: rest =>
      match parseStringBody fuel rest with
      | none => none
      | some kr =>
        match skipWs kr.2 with
        | ':' :: r2 =>
          match parseJsonF fuel r2 with
          | none => none
          | some vr =>
            match skipWs vr.2 with
            | ',' :: r4 => (parseMembersF fuel r4).map (fun r => ((kr.1, vr.1) :: r.1, r.2))
            | '\x7d' :: r4 => some ([(kr.1, vr.1)], r4)
            | _ => none
        | _ => none
    | _ => none

/-- Parse the elements of a JSON array after the opening bracket. -/
def parseElemsF : Nat → List Char → Option (List Json × List Char)
  | 0, _ => none
  | fuel + 1, s =>
    match parseJsonF fuel s with
    | none => none
    | some vr =>
      match skipWs vr.2 with
      | ',' :: r2 => (parseElemsF fuel r2).map (fun r => (vr.1 :: r.1, r.2))
      | ']' :: r2 => some ([vr.1], r2)
      | _ => none

end

/-- Model of the JavaScript builtin JSON.parse: parse a complete JSON document
(with optional surrounding whitespace); any leftover input is a failure. -/
def jsonParse (s : List Char) : Option Json :=
  match parseJsonF (s.length + 1) s with
  | some r => if (skipWs r.2).isEmpty then some r.1 else none
  | none => none

/-- Field lookup in a list of JSON object members (first match). -/
def jLookup : List (List Char × Json) → List Char → Option Json
  | [], _ => none
  | f :: rest, key => if f.1 = key then some f.2 else jLookup rest key

/-- Property access on a JSON value: defined only on objects. -/
def Json.getField (j : Json) (key : List Char) : Option Json :=
  match j with
  | .obj fields => jLookup fields key
  | _ => none

/-- Read a field expected to be a string. -/
def Json.getStr (j : Json) (key : List Char) : Option (List Char) :=
  match j.getField key with
  | some (.str s) => some s
  | _ => none

/-- Read a field expected to be an (integer) number. -/
def Json.getNum (j : Json) (key : List Char) : Option Int :=
  match j.getField key with
  | some (.num n) => some n
  | _ => none

/-! ## String helpers mirroring JavaScript string methods -/

/-- Whitespace removed by the JavaScript trim method (common characters). -/
def isTrimWs (c : Char) : Bool :=
  c = ' ' || c = '\t' || c = '\n' || c = '\r' || c = '\x0b' || c = '\x0c'

/-- Model of the JavaScript trim method. -/
def jsTrim (s : List Char) : List Char :=
  ((s.dropWhile isTrimWs).reverse.dropWhile isTrimWs).reverse

/-- Model of the JavaScript endsWith check for a single newline character. -/
def endsInNl (l : List Char) : Bool :=
  match l.getLast? with
  | some c => c = '\n'
  | none => false

/-! ## SSE frame reader (streamChat, provider.ts)

The source splits the carry-over buffer plus the arriving chunk on newline
with the String split method, treats a non-empty final piece that does not
end in a newline as the new carry-over, and processes every other piece as a
line.  A line is handed to the decoder parseSSEEvent only when its trim is
non-empty and it starts with the five characters of the data tag. -/

/-- Prepend a character onto the first piece of a split result. -/
def consHeadC (c : Char) : List (List Char) → List (List Char)
  | [] => [[c]]
  | p :: ps => (c :: p) :: ps

/-- Model of the JavaScript String split on the newline character: always
returns at least one piece, and no piece contains a newline. -/
def splitNl : List Char → List (List Char)
  | [] => [[]]
  | c :: rest =>
    if c = '\n' then [] :: splitNl rest
    else consHeadC c (splitNl rest)

/-- The filter applied before a line is handed to the decoder:
the trimmed line is non-empty and the line starts with the data tag. -/
def isDataLine (line : List Char) : Bool :=
  !(jsTrim line).isEmpty && (['d', 'a', 't', 'a', ':'].isPrefixOf line)

/-- One pass of the per-chunk line loop over the split pieces: every piece
except a non-empty final piece that does not end in a newline is a processed
line; that final piece becomes the new carry-over. -/
def framePieces : List (List Char) → List (List Char) × List Char
  | [] => ([], [])
  | [p] => if !(endsInNl p) && !p.isEmpty then ([], p) else ([p], [])
  | p :: q :: ps =>
    let r := framePieces (q :: ps)
    (p :: r.1, r.2)

/-- One chunk arrival: append the chunk to the carry-over buffer, split on
newline, and run the line loop.  Returns the processed lines and the new
carry-over buffer. -/
def frameStep (buf chunk : List Char) : List (List Char) × List Char :=
  framePieces (splitNl (buf ++ chunk))

/-- Run the frame reader over a whole sequence of chunks starting from a
carry-over buffer.  Returns all processed lines in order and the final
carry-over buffer. -/
def frameRun : List Char → List (List Char) → List (List Char) × List Char
  | buf, [] => ([], buf)
  | buf, c :: cs =>
    let r := frameStep buf c
    let r2 := frameRun r.2 cs
    (r.1 ++ r2.1, r2.2)

/-- The ordered sequence of lines the frame reader hands to the decoder for
a given chunk sequence: the processed lines that pass the data-line filter. -/
def decoderLines (chunks : List (List Char)) : List (List Char) :=
  (frameRun [] chunks).1.filter isDataLine

/-! ## Tool name transport encoding (provider.ts) -/

/-- Replace every dot in a tool name with the five-character marker,
mirroring the global regex replace in the source. -/
def sanitizeToolName : List Char → List Char
  | [] => []
  | c :: rest =>
    if c = '.' then '-' :: 'D' :: 'O' :: 'T' :: '-' :: sanitizeToolName rest
    else c :: sanitizeToolName rest

/-- Replace every occurrence of the marker with a dot, scanning left to
right without overlap, mirroring the global regex replace in the source. -/
def restoreToolName : List Char → List Char
  | '-' :: 'D' :: 'O' :: 'T' :: '-' :: rest => '.' :: restoreToolName rest
  | c :: rest => c :: restoreToolName rest
  | [] => []

/-! ## Decoded stream events (types.ts) and the translator (streamChat) -/

/-- Usage counts carried by a completed event. -/
structure Usage where
  input_tokens : Int
  output_tokens : Int
deriving DecidableEq

/-- Usage counts as emitted to the caller. -/
structure ChatUsage where
  inputTokens : Int
  outputTokens : Int
deriving DecidableEq

/-- The item carried by an output-item-added event; name and call id may be
absent. -/
structure OutputItem where
  type : List Char
  name : Option (List Char)
  call_id : Option (List Char)
deriving DecidableEq

/-- The decoded stream events the translator distinguishes.  Event types the
switch statement does not handle are collapsed into the unhandled variant. -/
inductive OpenAIStreamEvent where
  | outputTextDelta (delta : List Char)
  | reasoningSummaryDelta (delta : List Char)
  | outputItemAdded (output_index : Int) (item : OutputItem)
  | functionCallArgsDelta (output_index : Int) (delta : List Char)
  | functionCallArgsDone (output_index : Int) (arguments : List Char)
  | responseCompleted (usage : Option Usage)
  | errorEvent (message : List Char)
  | unhandled
deriving DecidableEq

/-- A chat event emitted to the caller. -/
inductive ChatEvent where
  | content (text : List Char)
  | thinking (text : List Char)
  | toolStart (name : List Char) (input : Json) (toolCallId : List Char)
  | errorEvent (message : List Char)
  | done (usage : Option ChatUsage)

/-- A function call being accumulated during streaming. -/
structure FunctionCallState where
  name : List Char
  callId : List Char
  arguments : List Char
deriving DecidableEq

/-- Lookup in the function call table (JavaScript Map get). -/
def mapGet : List (Int × FunctionCallState) → Int → Option FunctionCallState
  | [], _ => none
  | e :: rest, k => if e.1 = k then some e.2 else mapGet rest k

/-- Insertion in the function call table (JavaScript Map set: replaces an
existing key in place, otherwise appends). -/
def mapSet : List (Int × FunctionCallState) → Int → FunctionCallState → List (Int × FunctionCallState)
  | [], k, v => [(k, v)]
  | e :: rest, k, v => if e.1 = k then (k, v) :: rest else e :: mapSet rest k v

/-- The translator state threaded through the streaming loop.  The halted
flag models the generator having returned (after an error event): nothing
further is processed or emitted. -/
structure TranslatorState where
  buffer : List Char
  usage : Option ChatUsage
  functionCalls : List (Int × FunctionCallState)
  halted : Bool

/-- The initial translator state at the start of streaming. -/
def initialState : TranslatorState :=
  { buffer := [], usage := none, functionCalls := [], halted := false }

/-- The switch statement of streamChat on one decoded event: returns the new
state and the chat events emitted for this event.  The error case sets the
halted flag, modelling the immediate generator return. -/
def processEvent (st : TranslatorState) (e : OpenAIStreamEvent) : TranslatorState × List ChatEvent :=
  match e with
  | .outputTextDelta d => (st, [ChatEvent.content d])
  | .reasoningSummaryDelta d => (st, [ChatEvent.thinking d])
  | .outputItemAdded idx item =>
    if item.type = ['f', 'u', 'n', 'c', 't', 'i', 'o', 'n', '_', 'c', 'a', 'l', 'l'] then
      match item.name, item.call_id with
      | some n, some cid =>
        if n.isEmpty || cid.isEmpty then (st, [])
        else
          let fc : FunctionCallState := { name := restoreToolName n, callId := cid, arguments := [] }
          ({ st with functionCalls := mapSet st.functionCalls idx fc }, [])
      | _, _ => (st, [])
    else (st, [])
  | .functionCallArgsDelta idx d =>
    match mapGet st.functionCalls idx with
    | some fc =>
      let fc2 : FunctionCallState := { fc with arguments := fc.arguments ++ d }
      ({ st with functionCalls := mapSet st.functionCalls idx fc2 }, [])
    | none => (st, [])
  | .functionCallArgsDone idx args =>
    match mapGet st.functionCalls idx with
    | some fc =>
      match jsonParse args with
      | some j => (st, [ChatEvent.toolStart fc.name j fc.callId])
      | none => (st, [])
    | none => (st, [])
  | .responseCompleted u =>
    match u with
    | some usage => ({ st with usage := some ⟨usage.input_tokens, usage.output_tokens⟩ }, [])
    | none => (st, [])
  | .errorEvent m => ({ st with halted := true }, [ChatEvent.errorEvent m])
  | .unhandled => (st, [])

/-- Run the translator over a list of already decoded events; once halted,
nothing further is processed. -/
def runEvents : TranslatorState → List OpenAIStreamEvent → TranslatorState × List ChatEvent
  | st, [] => (st, [])
  | st, e :: es =>
    if st.halted then (st, [])
    else
      let r := processEvent st e
      let r2 := runEvents r.1 es
      (r2.1, r.2 ++ r2.2)

/-! ## Decoding a data line into a stream event (parseSSEEvent) -/

/-- Decode a parsed JSON payload into the tagged event union by its type
field.  The source trusts the cast; this decoder additionally requires the
fields the switch statement reads, and collapses every other type tag into
the unhandled variant (which the switch ignores). -/
def decodeStreamEvent (j : Json) : Option OpenAIStreamEvent :=
  match j.getStr ['t', 'y', 'p', 'e'] with
  | none => none
  | some t =>
    if t = "response.output_text.delta".toList then
      (j.getStr ['d', 'e', 'l', 't', 'a']).map OpenAIStreamEvent.outputTextDelta
    else if t = "response.reasoning_summary_text.delta".toList then
      (j.getStr ['d', 'e', 'l', 't', 'a']).map OpenAIStreamEvent.reasoningSummaryDelta
    else if t = "response.output_item.added".toList then
      match j.getNum "output_index".toList, j.getField "item".toList with
      | some idx, some item =>
        some (.outputItemAdded idx
          { type := (item.getStr ['t', 'y', 'p', 'e']).getD [],
            name := item.getStr ['n', 'a', 'm', 'e'],
            call_id := item.getStr "call_id".toList })
      | _, _ => none
    else if t = "response.function_call_arguments.delta".toList then
      match j.getNum "output_index".toList, j.getStr ['d', 'e', 'l', 't', 'a'] with
      | some idx, some d => some (.functionCallArgsDelta idx d)
      | _, _ => none
    else if t = "response.function_call_arguments.done".toList then
      match j.getNum "output_index".toList, j.getStr "arguments".toList with
      | some idx, some args => some (.functionCallArgsDone idx args)
      | _, _ => none
    else if t = "response.completed".toList then
      match j.getField "response".toList with
      | some resp =>
        let usage : Option Usage :=
          match resp.getField "usage".toList with
          | some u =>
            match u.getNum "input_tokens".toList, u.getNum "output_tokens".toList with
            | some i, some o => some ⟨i, o⟩
            | _, _ => none
          | none => none
        some (.responseCompleted usage)
      | none => none
    else if t = "error".toList then
      (j.getStr "message".toList).map OpenAIStreamEvent.errorEvent
    else some .unhandled

/-- Model of parseSSEEvent: requires the six-character data prefix including
the space, strips it, trims, drops the DONE sentinel, and parses the JSON
payload. -/
def parseSSEEvent (line : List Char) : Option OpenAIStreamEvent :=
  if !(['d', 'a', 't', 'a', ':', ' '].isPrefixOf line) then none
  else
    let jsonStr := jsTrim (line.drop 6)
    if jsonStr = "[DONE]".toList then none
    else
      match jsonParse jsonStr with
      | some j => decodeStreamEvent j
      | none => none

/-! ## The full streaming pipeline of streamChat -/

/-- Handle one processed line: blank lines and lines without the data tag
are skipped, and a line whose decoding fails produces nothing. -/
def handleLine (st : TranslatorState) (line : List Char) : TranslatorState × List ChatEvent :=
  if (jsTrim line).isEmpty || !(['d', 'a', 't', 'a', ':'].isPrefixOf line) then (st, [])
  else
    match parseSSEEvent line with
    | none => (st, [])
    | some e => processEvent st e

/-- The per-chunk loop over the split pieces: a non-empty final piece that
does not end in a newline becomes the carry-over buffer; every other piece
is handled as a line.  Once halted, the remaining iterations do not run. -/
def processPieces : TranslatorState → List (List Char) → TranslatorState × List ChatEvent
  | st, [] => (st, [])
  | st, [p] =>
    if st.halted then (st, [])
    else if !(endsInNl p) && !p.isEmpty then ({ st with buffer := p }, [])
    else handleLine st p
  | st, p :: q :: ps =>
    if st.halted then (st, [])
    else
      let r := handleLine st p
      let r2 := processPieces r.1 (q :: ps)
      (r2.1, r.2 ++ r2.2)

/-- One chunk arrival in streamChat: append to the buffer, split on newline,
reset the buffer, and run the piece loop.  A halted state consumes no more
chunks. -/
def handleChunk (st : TranslatorState) (chunk : List Char) : TranslatorState × List ChatEvent :=
  if st.halted then (st, [])
  else processPieces { st with buffer := [] } (splitNl (st.buffer ++ chunk))

/-- Fold the chunk handler over the whole transport stream. -/
def runChunks : TranslatorState → List (List Char) → TranslatorState × List ChatEvent
  | st, [] => (st, [])
  | st, c :: cs =>
    let r := handleChunk st c
    let r2 := runChunks r.1 cs
    (r2.1, r.2 ++ r2.2)

/-- The whole streaming section of streamChat on a chunk sequence: process
every chunk, then (unless the generator already returned after an error
event) decode a remaining non-blank carry-over once, keeping its usage if it
is a completed event with usage, and finally emit the terminal done event. -/
def streamChatEvents (chunks : List (List Char)) : List ChatEvent :=
  let r := runChunks initialState chunks
  let st := r.1
  if st.halted then r.2
  else
    let usage2 : Option ChatUsage :=
      if !(jsTrim st.buffer).isEmpty then
        match parseSSEEvent st.buffer with
        | some (.responseCompleted (some u)) => some ⟨u.input_tokens, u.output_tokens⟩
        | some _ => st.usage
        | none => st.usage
      else st.usage
    r.2 ++ [ChatEvent.done usage2]

/-! ## Device code flow: pollForToken (oauth/device-code.ts) -/

/-- The view of an HTTP response the poll uses: the status and the decoded
JSON body.  The ok flag of the platform fetch response means a 2xx status. -/
structure HttpResponse where
  status : Nat
  body : Json

/-- Model of the ok flag of a fetch response. -/
def respOk (r : HttpResponse) : Bool :=
  200 ≤ r.status && r.status ≤ 299

/-- The token response assembled from a successful token endpoint reply.
Fields cast from possibly absent JSON fields are Options. -/
structure TokenResponse where
  accessToken : Option (List Char)
  refreshToken : Option (List Char)
  expiresIn : Int
  tokenType : List Char
deriving DecidableEq

/-- JavaScript string-or-default: an absent or empty string falls back. -/
def jsOrStr (v : Option (List Char)) (dflt : List Char) : List Char :=
  match v with
  | some s => if s.isEmpty then dflt else s
  | none => dflt

/-- JavaScript number-or-default: an absent or zero number falls back. -/
def jsOrNum (v : Option Int) (dflt : Int) : Int :=
  match v with
  | some n => if n = 0 then dflt else n
  | none => dflt

/-- The three ways pollForToken can finish: no token yet (authorization
still pending), a token, or a thrown error. -/
inductive PollResult where
  | pending
  | success (t : TokenResponse)
  | failure (message : List Char)
deriving DecidableEq

/-- The decoded error code of a non-2xx token reply. -/
def pollErrCode (resp : HttpResponse) : List Char :=
  jsOrStr (resp.body.getStr "error".toList) []

/-- The decoded error description of a non-2xx token reply. -/
def pollErrDesc (resp : HttpResponse) : List Char :=
  jsOrStr (resp.body.getStr "error_description".toList) "Token request failed".toList

/-- Model of pollForToken on the token endpoint response: a non-2xx whose
error code is authorization pending or slow down yields no token; any other
non-2xx throws with the code and description; a 2xx builds the token pair
with the documented defaults. -/
def pollForToken (resp : HttpResponse) : PollResult :=
  if !(respOk resp) then
    let error := pollErrCode resp
    if error = "authorization_pending".toList || error = "slow_down".toList then
      .pending
    else
      .failure (error ++ ':' :: ' ' :: pollErrDesc resp)
  else
    .success
      { accessToken := resp.body.getStr "access_token".toList,
        refreshToken := resp.body.getStr "refresh_token".toList,
        expiresIn := jsOrNum (resp.body.getNum "expires_in".toList) 3600,
        tokenType := jsOrStr (resp.body.getStr "token_type".toList) "Bearer".toList }

/-! ## Token lifecycle manager: getAccessToken (oauth/token-manager.ts) -/

/-- The three persisted secret fields. -/
structure SecretsState where
  accessToken : Option (List Char)
  refreshToken : Option (List Char)
  expiresAt : Option (List Char)
deriving DecidableEq

/-- JavaScript falsiness for a string read from secret storage: absent or
empty. -/
def jsFalsy (v : Option (List Char)) : Bool :=
  match v with
  | some s => s.isEmpty
  | none => true

/-- The observable outcome of one getAccessToken call: the returned value,
the log calls made, how many refresh requests were issued, and the token
triple persisted by storeTokens when a refresh succeeded. -/
structure GetTokenOutcome where
  result : Option (List Char)
  warned : Bool
  loggedError : Bool
  refreshCalls : Nat
  stored : Option (Option (List Char) × Option (List Char) × Int)
deriving DecidableEq

/-- Model of getAccessToken.  The clock reading and the platform date parser
are passed explicitly; the outcome of the single possible refresh network
call is passed as an Except value. -/
def getAccessToken (s : SecretsState) (now : Int) (parseDate : List Char → Int)
    (refreshResult : Except (List Char) TokenResponse) : GetTokenOutcome :=
  if jsFalsy s.accessToken then
    { result := none, warned := false, loggedError := false, refreshCalls := 0, stored := none }
  else if jsFalsy s.expiresAt then
    { result := s.accessToken, warned := false, loggedError := false, refreshCalls := 0, stored := none }
  else
    let expiresTime := parseDate ((s.expiresAt).getD [])
    let bufferMs : Int := 5 * 60 * 1000
    if now < expiresTime - bufferMs then
      { result := s.accessToken, warned := false, loggedError := false, refreshCalls := 0, stored := none }
    else if jsFalsy s.refreshToken then
      { result := none, warned := true, loggedError := false, refreshCalls := 0, stored := none }
    else
      match refreshResult with
      | .ok t =>
        { result := t.accessToken, warned := false, loggedError := false,
          refreshCalls := 1, stored := some (t.accessToken, t.refreshToken, t.expiresIn) }
      | .error _ =>
        { result := none, warned := false, loggedError := true, refreshCalls := 1, stored := none }

/-! ## Background device code polling loop (pollInBackground) -/

/-- The outcome of one poll call as seen by the background loop: the null
return (authorization pending), a token, or a thrown error. -/
inductive PollOutcome where
  | pending
  | success (t : TokenResponse)
  | failure (message : List Char)
deriving DecidableEq

/-- The connection status values of the OAuth UI state. -/
inductive OAuthStatus where
  | disconnected
  | awaiting
  | connected
  | error
deriving DecidableEq

/-- The OAuth UI state record written wholesale by the loop exits. -/
structure OAuthUIState where
  status : OAuthStatus
  verificationUrl : List Char
  userCode : List Char
  errorMessage : List Char
deriving DecidableEq

/-- What the background loop leaves behind: how many poll calls it made, the
final connection state it set, and the token triple it persisted on
success. -/
structure LoopResult where
  attempts : Nat
  finalState : OAuthUIState
  stored : Option (Option (List Char) × Option (List Char) × Int)
deriving DecidableEq

/-- The attempt budget of the background loop. -/
def MAX_POLL_ATTEMPTS : Nat := 60

/-- The timeout message set when the attempt budget is exhausted. -/
def timeoutMessage : List Char := "Authorization timed out. Please try again.".toList

/-- The body of pollInBackground: poll once per remaining attempt; a token
stores it and sets connected; a thrown poll error sets the error state with
the message; a pending result continues; an exhausted budget sets the error
state with the timeout message. -/
def pollLoopGo (polls : Nat → PollOutcome) (attempt : Nat) : Nat → LoopResult
  | 0 =>
    { attempts := attempt,
      finalState := { status := .error, verificationUrl := [], userCode := [],
                      errorMessage := timeoutMessage },
      stored := none }
  | fuel + 1 =>
    match polls attempt with
    | .success t =>
      { attempts := attempt + 1,
        finalState := { status := .connected, verificationUrl := [], userCode := [],
                        errorMessage := [] },
        stored := some (t.accessToken, t.refreshToken, t.expiresIn) }
    | .failure m =>
      { attempts := attempt + 1,
        finalState := { status := .error, verificationUrl := [], userCode := [],
                        errorMessage := m },
        stored := none }
    | .pending => pollLoopGo polls (attempt + 1) fuel

/-- Model of pollInBackground: run the loop from attempt zero with the full
attempt budget.  The i-th poll call outcome is given by the polls function. -/
def pollInBackground (polls : Nat → PollOutcome) : LoopResult :=
  pollLoopGo polls 0 MAX_POLL_ATTEMPTS

/-! ## Lemmas about the newline split -/

/-- The last piece of a split result. -/
def lastPiece : List (List Char) → List Char
  | [] => []
  | [p] => p
  | _ :: q :: ps => lastPiece (q :: ps)

/-- Prepend a list of characters onto the first piece. -/
def consHeadL (l : List Char) : List (List Char) → List (List Char)
  | [] => [l]
  | p :: ps => (l ++ p) :: ps

theorem consHeadC_ne_nil (c : Char) (ps : List (List Char)) : consHeadC c ps ≠ [] := by
  cases ps <;> simp [consHeadC]

theorem splitNl_ne_nil (s : List Char) : splitNl s ≠ [] := by
  induction s with
  | nil => simp [splitNl]
  | cons c rest ih =>
    simp only [splitNl]
    split
    · simp
    · exact consHeadC_ne_nil c (splitNl rest)

theorem mem_splitNl_no_nl (s : List Char) : ∀ p ∈ splitNl s, '\n' ∉ p := by
  induction s with
  | nil => intro p hp; simp [splitNl] at hp; simp [hp]
  | cons c rest ih =>
    intro p hp
    by_cases hc : c = '\n'
    · subst hc
      simp [splitNl] at hp
      rcases hp with h | h
      · simp [h]
      · exact ih p h
    · simp only [splitNl, if_neg hc] at hp
      cases hsp : splitNl rest with
      | nil => exact absurd hsp (splitNl_ne_nil rest)
      | cons q qs =>
        rw [hsp] at hp
        simp only [consHeadC] at hp
        rcases List.mem_cons.mp hp with h | h
        · subst h
          intro hm
          rcases List.mem_cons.mp hm with h1 | h1
          · exact hc h1.symm
          · exact ih q (by rw [hsp]; exact List.mem_cons_self q qs) h1
        · exact ih p (by rw [hsp]; exact List.mem_cons_of_mem q h)

theorem lastPiece_cons (p : List Char) (ps : List (List Char)) (h : ps ≠ []) :
    lastPiece (p :: ps) = lastPiece ps := by
  cases ps with
  | nil => exact absurd rfl h
  | cons q qs => rfl

theorem lastPiece_mem (ps : List (List Char)) (h : ps ≠ []) : lastPiece ps ∈ ps := by
  induction ps with
  | nil => exact absurd rfl h
  | cons p qs ih =>
    cases qs with
    | nil => simp [lastPiece]
    | cons q qs' => simp [lastPiece_cons p (q :: qs') (by simp), ih (by simp)]

theorem lastPiece_append (A B : List (List Char)) (h : B ≠ []) :
    lastPiece (A ++ B) = lastPiece B := by
  induction A with
  | nil => rfl
  | cons a A' ih =>
    have hne : A' ++ B ≠ [] := by
      intro hx
      rcases List.append_eq_nil.mp hx with ⟨_, h2⟩
      exact h h2
    rw [List.cons_append, lastPiece_cons a (A' ++ B) hne, ih]

theorem splitNl_no_nl (s : List Char) (h : '\n' ∉ s) : splitNl s = [s] := by
  induction s with
  | nil => rfl
  | cons c rest ih =>
    have hc : c ≠ '\n' := fun hx => h (by simp [hx])
    have hr : '\n' ∉ rest := fun hx => h (by simp [hx])
    simp only [splitNl, if_neg hc, ih hr]
    rfl

theorem splitNl_append (a b : List Char) :
    splitNl (a ++ b) = (splitNl a).dropLast ++ consHeadL (lastPiece (splitNl a)) (splitNl b) := by
  induction a with
  | nil =>
    cases hb : splitNl b with
    | nil => exact absurd hb (splitNl_ne_nil b)
    | cons p ps =>
      simp only [List.nil_append, hb]
      simp [splitNl, lastPiece, consHeadL]
  | cons c a' ih =>
    by_cases hc : c = '\n'
    · subst hc
      have hne := splitNl_ne_nil a'
      have h1 : splitNl ('\n' :: a' ++ b) = [] :: splitNl (a' ++ b) := by
        simp [splitNl]
      have h2 : splitNl ('\n' :: a') = [] :: splitNl a' := by
        simp [splitNl]
      rw [h1, h2, ih, List.dropLast_cons_of_ne_nil hne, lastPiece_cons [] (splitNl a') hne,
        List.cons_append]
    · have h1 : splitNl (c :: a' ++ b) = consHeadC c (splitNl (a' ++ b)) := by
        simp [splitNl, hc]
      have h2 : splitNl (c :: a') = consHeadC c (splitNl a') := by
        simp [splitNl, hc]
      rw [h1, h2, ih]
      cases hsp : splitNl a' with
      | nil => exact absurd hsp (splitNl_ne_nil a')
      | cons q qs =>
        cases hb : splitNl b with
        | nil => exact absurd hb (splitNl_ne_nil b)
        | cons r rs =>
          cases qs with
          | nil => simp [consHeadC, consHeadL, lastPiece, List.dropLast]
          | cons q2 qs2 => simp [consHeadC, consHeadL, lastPiece, List.dropLast]

/-- A list without a newline does not end in one. -/
theorem endsInNl_false (p : List Char) (h : '\n' ∉ p) : endsInNl p = false := by
  unfold endsInNl
  cases hg : p.getLast? with
  | none => rfl
  | some c =>
    have hm := List.mem_of_getLast?_eq_some hg
    by_cases hc : c = '\n'
    · exact absurd (hc ▸ hm) h
    · simp [hc]

theorem framePieces_spec (ps : List (List Char)) (hnl : ∀ p ∈ ps, endsInNl p = false)
    (hne : ps ≠ []) :
    (framePieces ps).1.filter (fun l => !l.isEmpty) = ps.dropLast.filter (fun l => !l.isEmpty) ∧
    (framePieces ps).2 = lastPiece ps := by
  induction ps with
  | nil => exact absurd rfl hne
  | cons p qs ih =>
    cases qs with
    | nil =>
      have hp : endsInNl p = false := hnl p (by simp)
      by_cases hemp : p.isEmpty
      · have : p = [] := by cases p <;> simp_all
        subst this
        simp [framePieces, lastPiece, List.dropLast]
      · simp [framePieces, hp, hemp, lastPiece, List.dropLast]
    | cons q qs' =>
      have ih2 := ih (fun x hx => hnl x (by simp [hx])) (by simp)
      have hfp : framePieces (p :: q :: qs')
          = (p :: (framePieces (q :: qs')).1, (framePieces (q :: qs')).2) := rfl
      rw [hfp]
      constructor
      · rw [List.dropLast_cons_of_ne_nil (l := q :: qs') (by simp)]
        rw [List.filter_cons, List.filter_cons, ih2.1]
      · rw [lastPiece_cons p (q :: qs') (by simp)]
        exact ih2.2

theorem frameRun_canonical (cs : List (List Char)) :
    ∀ buf, '\n' ∉ buf →
      (frameRun buf cs).1.filter (fun l => !l.isEmpty)
        = (splitNl (buf ++ cs.flatten)).dropLast.filter (fun l => !l.isEmpty) ∧
      (frameRun buf cs).2 = lastPiece (splitNl (buf ++ cs.flatten)) := by
  induction cs with
  | nil =>
    intro buf hbuf
    simp only [frameRun, List.flatten_nil, List.append_nil, splitNl_no_nl buf hbuf]
    simp [lastPiece, List.dropLast]
  | cons c cs' ih =>
    intro buf hbuf
    have hA : ∀ p ∈ splitNl (buf ++ c), endsInNl p = false :=
      fun p hp => endsInNl_false p (mem_splitNl_no_nl (buf ++ c) p hp)
    have hfp := framePieces_spec (splitNl (buf ++ c)) hA (splitNl_ne_nil (buf ++ c))
    have hlp : '\n' ∉ lastPiece (splitNl (buf ++ c)) :=
      mem_splitNl_no_nl (buf ++ c)
        (lastPiece (splitNl (buf ++ c)))
        (lastPiece_mem (splitNl (buf ++ c)) (splitNl_ne_nil (buf ++ c)))
    have ih2 := ih (lastPiece (splitNl (buf ++ c))) hlp
    have hkey : splitNl (buf ++ (c :: cs').flatten)
        = (splitNl (buf ++ c)).dropLast
            ++ splitNl (lastPiece (splitNl (buf ++ c)) ++ cs'.flatten) := by
      have h1 : buf ++ (c :: cs').flatten = (buf ++ c) ++ cs'.flatten := by
        simp [List.flatten_cons, List.append_assoc]
      rw [h1, splitNl_append (buf ++ c) cs'.flatten,
        splitNl_append (lastPiece (splitNl (buf ++ c))) cs'.flatten,
        splitNl_no_nl (lastPiece (splitNl (buf ++ c))) hlp]
      simp [lastPiece, List.dropLast]
    have hrun : frameRun buf (c :: cs')
        = ((frameStep buf c).1 ++ (frameRun (frameStep buf c).2 cs').1,
           (frameRun (frameStep buf c).2 cs').2) := rfl
    constructor
    · rw [hrun]
      simp only [List.filter_append]
      rw [show frameStep buf c = framePieces (splitNl (buf ++ c)) from rfl] at *
      rw [hfp.1, hfp.2, ih2.1, hkey,
        List.dropLast_append_of_ne_nil _ (splitNl_ne_nil _), List.filter_append]
    · rw [hrun]
      simp only
      rw [show frameStep buf c = framePieces (splitNl (buf ++ c)) from rfl] at *
      rw [hfp.2, ih2.2, hkey, lastPiece_append _ _ (splitNl_ne_nil _)]

/-- Filtering by the data-line condition only depends on the non-empty
processed lines, because an empty line never passes the filter. -/
theorem filter_isDataLine_eq (l : List (List Char)) :
    l.filter isDataLine = (l.filter (fun x => !x.isEmpty)).filter isDataLine := by
  rw [List.filter_filter]
  apply List.filter_congr
  intro x _
  cases x with
  | nil => simp [isDataLine, jsTrim]
  | cons c r => simp

/-- The decoder-visible line sequence in canonical form: the data lines among
all pieces of the whole logical text except the last. -/
theorem decoderLines_canonical (cs : List (List Char)) :
    decoderLines cs = ((splitNl cs.flatten).dropLast).filter isDataLine := by
  have h := frameRun_canonical cs [] (by simp)
  unfold decoderLines
  rw [filter_isDataLine_eq, h.1, ← filter_isDataLine_eq]
  simp

/-- C1: for every logical text stream and every way of splitting it into
chunks, the frame-reading logic of streamChat hands the decoder the identical
ordered sequence of complete lines, and keeps the identical carry-over
buffer: both depend only on the concatenation of the chunks. -/
theorem C1_sse_frame_reader_chunk_invariance (cs cs' : List (List Char))
    (h : cs.flatten = cs'.flatten) :
    decoderLines cs = decoderLines cs' ∧ (frameRun [] cs).2 = (frameRun [] cs').2 := by
  constructor
  · rw [decoderLines_canonical, decoderLines_canonical, h]
  · rw [(frameRun_canonical cs [] (by simp)).2, (frameRun_canonical cs' [] (by simp)).2, h]

/-- C1 witness: a mid-line split and a one-character-at-a-time split of the
same two-line stream yield the same decoder lines and carry-over. -/
theorem C1_sse_frame_reader_chunk_invariance_witness :
    decoderLines ["data: a\nda".toList, "ta: b\nx".toList]
      = decoderLines (("data: a\ndata: b\nx".toList).map (fun c => [c]))
    ∧ (frameRun [] ["data: a\nda".toList, "ta: b\nx".toList]).2
      = (frameRun [] (("data: a\ndata: b\nx".toList).map (fun c => [c]))).2 :=
  C1_sse_frame_reader_chunk_invariance _ _ (by decide)

/-! ## The tool-name round trip -/

/-- Whether a character sequence occurs contiguously inside a string. -/
def containsSeq (pat : List Char) : List Char → Bool
  | [] => pat.isEmpty
  | c :: rest => pat.isPrefixOf (c :: rest) || containsSeq pat rest

theorem restore_marker (l : List Char) :
    restoreToolName ('-' :: 'D' :: 'O' :: 'T' :: '-' :: l) = '.' :: restoreToolName l := rfl

theorem restore_cons_ne (c : Char) (l : List Char)
    (h : ∀ l', c :: l ≠ '-' :: 'D' :: 'O' :: 'T' :: '-' :: l') :
    restoreToolName (c :: l) = c :: restoreToolName l := by
  rw [restoreToolName.eq_def]
  split
  next rest heq => exact absurd heq (h rest)
  next c' rest heq => injection heq with h1 h2; rw [h1, h2]
  next _ heq => exact absurd heq (List.cons_ne_nil c l)

/-- The sanitized form of a name starts with a character other than the
dash only when the name itself starts with that character. -/
theorem sanitize_cons_inv (r : List Char) (d : Char) (t : List Char) (hd : d ≠ '-')
    (hs : sanitizeToolName r = d :: t) : ∃ r', r = d :: r' ∧ sanitizeToolName r' = t := by
  cases r with
  | nil => simp [sanitizeToolName] at hs
  | cons x r' =>
    by_cases hx : x = '.'
    · subst hx
      simp only [sanitizeToolName, if_pos rfl] at hs
      injection hs with h1 _
      exact absurd h1.symm hd
    · simp only [sanitizeToolName, if_neg hx] at hs
      injection hs with h1 h2
      exact ⟨r', by rw [h1], h2⟩

/-- Round trip of the tool-name encoding for every name in which the four
characters of the marker head never occur contiguously. -/
theorem roundtrip_of_no_marker_head (name : List Char)
    (h : containsSeq ['-', 'D', 'O', 'T'] name = false) :
    restoreToolName (sanitizeToolName name) = name := by
  induction name with
  | nil => rfl
  | cons c rest ih =>
    have h2 : containsSeq ['-', 'D', 'O', 'T'] rest = false := by
      simp only [containsSeq, Bool.or_eq_false_iff] at h
      exact h.2
    have h1 : (['-', 'D', 'O', 'T'].isPrefixOf (c :: rest)) = false := by
      simp only [containsSeq, Bool.or_eq_false_iff] at h
      exact h.1
    by_cases hc : c = '.'
    · subst hc
      have hs : sanitizeToolName ('.' :: rest)
          = '-' :: 'D' :: 'O' :: 'T' :: '-' :: sanitizeToolName rest := by
        simp [sanitizeToolName]
      rw [hs, restore_marker, ih h2]
    · simp only [sanitizeToolName, if_neg hc]
      rw [restore_cons_ne c (sanitizeToolName rest), ih h2]
      intro l' heq
      injection heq with hce hrest
      subst hce
      obtain ⟨r1, hr1, hs1⟩ := sanitize_cons_inv rest 'D' _ (by decide) hrest
      obtain ⟨r2, hr2, hs2⟩ := sanitize_cons_inv r1 'O' _ (by decide) hs1
      obtain ⟨r3, hr3, _⟩ := sanitize_cons_inv r2 'T' _ (by decide) hs2
      rw [hr1, hr2, hr3] at h1
      simp [List.isPrefixOf] at h1

/-- C2 counterexample: the tool name made of a dot followed by the marker
contains the reserved dot, yet sanitizing and restoring it yields two dots,
not the original name. -/
theorem C2_tool_name_roundtrip_counterexample :
    '.' ∈ ".-DOT-".toList ∧
    restoreToolName (sanitizeToolName ".-DOT-".toList) ≠ ".-DOT-".toList := by
  decide

/-- C2 (amended): for every tool name that contains the reserved dot and in
which the four characters of the marker head never occur contiguously,
restoring the sanitized name is an exact round trip. -/
theorem C2_tool_name_roundtrip (name : List Char) (_hdot : '.' ∈ name)
    (h : containsSeq ['-', 'D', 'O', 'T'] name = false) :
    restoreToolName (sanitizeToolName name) = name :=
  roundtrip_of_no_marker_head name h

/-- C2 witness: the round trip on a concrete dotted name. -/
theorem C2_tool_name_roundtrip_witness :
    restoreToolName (sanitizeToolName "tools.search.web".toList) = "tools.search.web".toList :=
  C2_tool_name_roundtrip _ (by decide) (by decide)

/-! ## The tool-call lifecycle inside the translator -/

/-- C3: on an output-item-added for index 2 with item type function call,
name search and call id c1, two arguments-delta events for index 2, and an
arguments-done for index 2 with the complete arguments text, the translator
emits exactly one chat event: a tool start whose name is the restored tool
name, whose input is the parsed arguments object, and whose tool call id is
c1. -/
theorem C3_tool_call_lifecycle :
    (runEvents initialState
      [OpenAIStreamEvent.outputItemAdded 2
          { type := "function_call".toList, name := some "search".toList,
            call_id := some "c1".toList },
        OpenAIStreamEvent.functionCallArgsDelta 2 "\x7b\"q\":".toList,
        OpenAIStreamEvent.functionCallArgsDelta 2 "\"x\"\x7d".toList,
        OpenAIStreamEvent.functionCallArgsDone 2 "\x7b\"q\":\"x\"\x7d".toList]).2
    = [ChatEvent.toolStart (restoreToolName "search".toList)
        (Json.obj [("q".toList, Json.str "x".toList)]) "c1".toList] := rfl

/-- C4: an arguments-delta or arguments-done event whose output index has no
registered pending call leaves the translator state unchanged and emits no
chat event at all. -/
theorem C4_unregistered_index_noop (st : TranslatorState) (idx : Int) (d args : List Char)
    (h : mapGet st.functionCalls idx = none) :
    processEvent st (OpenAIStreamEvent.functionCallArgsDelta idx d) = (st, []) ∧
    processEvent st (OpenAIStreamEvent.functionCallArgsDone idx args) = (st, []) := by
  constructor <;> simp [processEvent, h]

/-- C4 witness: delta and done events for index 7 on the initial state,
where no call is registered. -/
theorem C4_unregistered_index_noop_witness :
    processEvent initialState (OpenAIStreamEvent.functionCallArgsDelta 7 "x".toList)
      = (initialState, []) ∧
    processEvent initialState (OpenAIStreamEvent.functionCallArgsDone 7 "x".toList)
      = (initialState, []) :=
  C4_unregistered_index_noop initialState 7 "x".toList "x".toList rfl

/-! ## Data lines without the space after the colon -/

theorem isPrefixOf_exists (pat : List Char) :
    ∀ l, pat.isPrefixOf l = true → ∃ t, l = pat ++ t := by
  induction pat with
  | nil => intro l _; exact ⟨l, rfl⟩
  | cons c cs ih =>
    intro l h
    cases l with
    | nil => simp [List.isPrefixOf] at h
    | cons x xs =>
      simp only [List.isPrefixOf, Bool.and_eq_true, beq_iff_eq] at h
      obtain ⟨t, ht⟩ := ih xs h.2
      exact ⟨t, by rw [h.1, ht]; rfl⟩

/-- C10: a line that starts with the five characters of the data tag but not
with the six-character tag including the space passes the line filter of
streamChat, yet the decoder parseSSEEvent rejects it, so the line is dropped
without producing any chat event or state change. -/
theorem C10_data_line_without_space (line : List Char)
    (h5 : (['d', 'a', 't', 'a', ':'].isPrefixOf line) = true)
    (h6 : (['d', 'a', 't', 'a', ':', ' '].isPrefixOf line) = false) :
    isDataLine line = true ∧ parseSSEEvent line = none ∧
    ∀ st, handleLine st line = (st, []) := by
  obtain ⟨t, ht⟩ := isPrefixOf_exists ['d', 'a', 't', 'a', ':'] line h5
  have htrim : (jsTrim line).isEmpty = false := by
    have hd : 'd' ∈ line.reverse := by
      rw [List.mem_reverse, ht]
      exact List.mem_append_left t (by decide)
    have hne : line.reverse.dropWhile isTrimWs ≠ [] := fun hnil => by
      have := List.dropWhile_eq_nil_iff.mp hnil 'd' hd
      simp [isTrimWs] at this
    have h0 : line.dropWhile isTrimWs = line := by
      rw [ht]
      exact List.dropWhile_cons_of_neg (by decide)
    unfold jsTrim
    rw [h0]
    cases hcase : (line.reverse.dropWhile isTrimWs).reverse with
    | nil => exact absurd (List.reverse_eq_nil_iff.mp hcase) hne
    | cons x xs => rfl
  have hp : parseSSEEvent line = none := by
    simp [parseSSEEvent, h6]
  refine ⟨by simp [isDataLine, htrim, h5], hp, fun st => ?_⟩
  simp [handleLine, htrim, h5, hp]

/-- C10 witness: the DONE sentinel written without a space after the colon
passes the filter, is rejected by the decoder, and produces nothing. -/
theorem C10_data_line_without_space_witness :
    isDataLine "data:[DONE]".toList = true ∧
    parseSSEEvent "data:[DONE]".toList = none ∧
    handleLine initialState "data:[DONE]".toList = (initialState, []) := by
  have h := C10_data_line_without_space "data:[DONE]".toList (by decide) (by decide)
  exact ⟨h.1, h.2.1, h.2.2 initialState⟩

/-! ## Usage capture and the terminal done event -/

/-- Whether an event is a response-completed event that carries usage. -/
def isCompletedWithUsage : OpenAIStreamEvent → Bool
  | .responseCompleted (some _) => true
  | _ => false

/-- Processing any event that is not a completed-with-usage event leaves the
captured usage unchanged. -/
theorem processEvent_usage (st : TranslatorState) (e : OpenAIStreamEvent)
    (h : isCompletedWithUsage e = false) :
    (processEvent st e).1.usage = st.usage := by
  cases e with
  | outputItemAdded idx item =>
    simp only [processEvent]
    split
    · cases item.name <;> cases item.call_id <;> simp
      split <;> simp
    · simp
  | functionCallArgsDelta idx d =>
    simp only [processEvent]
    cases mapGet st.functionCalls idx <;> simp
  | functionCallArgsDone idx args =>
    simp only [processEvent]
    cases mapGet st.functionCalls idx with
    | none => simp
    | some fc => cases jsonParse args <;> simp
  | responseCompleted u =>
    cases u with
    | none => simp [processEvent]
    | some _ => simp [isCompletedWithUsage] at h
  | _ => simp [processEvent]

/-- Running the translator over events none of which is a completed event
with usage leaves the captured usage unchanged. -/
theorem runEvents_usage (es : List OpenAIStreamEvent) :
    ∀ st, (∀ e ∈ es, isCompletedWithUsage e = false) →
      (runEvents st es).1.usage = st.usage := by
  induction es with
  | nil => intro st _; rfl
  | cons e es' ih =>
    intro st h
    simp only [runEvents]
    split
    · rfl
    · have h1 := processEvent_usage st e (h e (by simp))
      have h2 := ih (processEvent st e).1 (fun x hx => h x (by simp [hx]))
      simpa [h2] using h1

set_option maxRecDepth 10000 in
/-- C6: a response-completed event with usage only records the usage and
does not terminate the stream by itself; the concrete completed event with
input tokens ten and output tokens five followed by normal transport
exhaustion yields exactly the terminal done event carrying that usage;
without any completed event the pipeline ends in a done event with no usage,
and no captured usage ever arises from events without usage. -/
theorem C6_usage_capture_and_done :
    (∀ st u, processEvent st (OpenAIStreamEvent.responseCompleted (some u))
      = ({ st with usage := some ⟨u.input_tokens, u.output_tokens⟩ }, [])) ∧
    streamChatEvents
        ["data: \x7b\"type\":\"response.completed\",\"response\":\x7b\"usage\":\x7b\"input_tokens\":10,\"output_tokens\":5\x7d\x7d\x7d\n\n".toList]
      = [ChatEvent.done (some ⟨10, 5⟩)] ∧
    streamChatEvents
        ["data: \x7b\"type\":\"response.output_text.delta\",\"delta\":\"hi\"\x7d\n\n".toList]
      = [ChatEvent.content "hi".toList, ChatEvent.done none] ∧
    (∀ es, (∀ e ∈ es, isCompletedWithUsage e = false) →
      (runEvents initialState es).1.usage = none) := by
  refine ⟨fun st u => rfl, rfl, rfl, fun es h => ?_⟩
  rw [runEvents_usage es initialState h]
  rfl

/-- C6 witness: the completed event at a concrete state and usage, and the
no-usage part at a concrete event list. -/
theorem C6_usage_capture_and_done_witness :
    processEvent initialState (OpenAIStreamEvent.responseCompleted (some ⟨10, 5⟩))
      = ({ initialState with usage := some ⟨10, 5⟩ }, []) ∧
    (runEvents initialState [OpenAIStreamEvent.outputTextDelta "hi".toList]).1.usage = none := by
  refine ⟨C6_usage_capture_and_done.1 initialState ⟨10, 5⟩, ?_⟩
  exact C6_usage_capture_and_done.2.2.2 [OpenAIStreamEvent.outputTextDelta "hi".toList]
    (by intro e he; simp at he; subst he; rfl)

/-! ## Device code polling: pollForToken -/

/-- C7: pollForToken yields the pending result exactly on a non-2xx reply
whose decoded error code is authorization pending or slow down; every other
non-2xx reply throws an error message made of the provider error code and
description; a 2xx reply yields a token pair in which a missing expires-in
defaults to 3600 and a missing token type defaults to Bearer. -/
theorem C7_poll_for_token :
    (∀ resp, pollForToken resp = PollResult.pending ↔
      (respOk resp = false ∧
        (pollErrCode resp = "authorization_pending".toList ∨
         pollErrCode resp = "slow_down".toList))) ∧
    (∀ resp, respOk resp = false →
      pollErrCode resp ≠ "authorization_pending".toList →
      pollErrCode resp ≠ "slow_down".toList →
      pollForToken resp = PollResult.failure (pollErrCode resp ++ ':' :: ' ' :: pollErrDesc resp)) ∧
    (∀ resp, respOk resp = true →
      ∃ t, pollForToken resp = PollResult.success t ∧
        (resp.body.getNum "expires_in".toList = none → t.expiresIn = 3600) ∧
        (resp.body.getStr "token_type".toList = none → t.tokenType = "Bearer".toList)) := by
  refine ⟨fun resp => ?_, fun resp hok h1 h2 => ?_, fun resp hok => ?_⟩
  · constructor
    · intro h
      by_cases hok : respOk resp = true
      · simp [pollForToken, hok] at h
      · have hok2 : respOk resp = false := by simpa using hok
        refine ⟨hok2, ?_⟩
        by_cases h1 : pollErrCode resp = "authorization_pending".toList
        · exact Or.inl h1
        · by_cases h2 : pollErrCode resp = "slow_down".toList
          · exact Or.inr h2
          · exfalso
            simp at h1 h2
            simp [pollForToken, hok2, h1, h2] at h
    · rintro ⟨hok, hc⟩
      rcases hc with h1 | h1 <;> simp [pollForToken, hok, h1]
  · simp at h1 h2
    simp [pollForToken, hok, h1, h2]
  · have hred : pollForToken resp = PollResult.success
        { accessToken := resp.body.getStr "access_token".toList,
          refreshToken := resp.body.getStr "refresh_token".toList,
          expiresIn := jsOrNum (resp.body.getNum "expires_in".toList) 3600,
          tokenType := jsOrStr (resp.body.getStr "token_type".toList) "Bearer".toList } := by
      unfold pollForToken
      rw [hok]
      rfl
    refine ⟨_, hred, fun hmiss => ?_, fun hmiss => ?_⟩
    · simp only [jsOrNum]
      rw [hmiss]
    · simp only [jsOrStr]
      rw [hmiss]

/-- C7 witness: a 400 reply with the authorization-pending code is pending,
and a 400 reply with the access-denied code throws with code and
description. -/
theorem C7_poll_for_token_witness :
    pollForToken
        { status := 400,
          body := Json.obj [("error".toList, Json.str "authorization_pending".toList)] }
      = PollResult.pending ∧
    pollForToken
        { status := 400,
          body := Json.obj [("error".toList, Json.str "access_denied".toList),
                            ("error_description".toList, Json.str "denied".toList)] }
      = PollResult.failure "access_denied: denied".toList := by
  constructor
  · exact (C7_poll_for_token.1 _).mpr (by constructor <;> [rfl; exact Or.inl rfl])
  · exact C7_poll_for_token.2.1 _ rfl (by decide) (by decide)

/-! ## Token lifecycle: getAccessToken within the expiry buffer -/

/-- C8: when the persisted access token exists and its recorded expiry is
within the five-minute buffer of the current time, getAccessToken with a
persisted refresh token performs exactly one refresh call and, on success,
persists the new pair and returns the new access token; a refresh failure is
logged and yields no token; with no usable refresh token it warns and yields
no token without any refresh call.  Every outcome is a returned value, never
a thrown error. -/
theorem C8_get_access_token_refresh (s : SecretsState) (now : Int)
    (parseDate : List Char → Int) (rr : Except (List Char) TokenResponse) (e : List Char)
    (hA : jsFalsy s.accessToken = false)
    (hE : s.expiresAt = some e) (hEne : e.isEmpty = false)
    (hBuf : ¬ now < parseDate e - 5 * 60 * 1000) :
    ((jsFalsy s.refreshToken = false →
        (∀ t, rr = Except.ok t →
          getAccessToken s now parseDate rr =
            { result := t.accessToken, warned := false, loggedError := false,
              refreshCalls := 1, stored := some (t.accessToken, t.refreshToken, t.expiresIn) }) ∧
        (∀ m, rr = Except.error m →
          getAccessToken s now parseDate rr =
            { result := none, warned := false, loggedError := true,
              refreshCalls := 1, stored := none })) ∧
     (jsFalsy s.refreshToken = true →
        getAccessToken s now parseDate rr =
          { result := none, warned := true, loggedError := false,
            refreshCalls := 0, stored := none })) := by
  have hF : jsFalsy s.expiresAt = false := by simp [jsFalsy, hE, hEne]
  have hBuf2 : ¬ now < parseDate e - 300000 := by simpa using hBuf
  have hFe : jsFalsy (some e) = false := by simp [jsFalsy, hEne]
  refine ⟨fun hR => ⟨fun t ht => ?_, fun m hm => ?_⟩, fun hR => ?_⟩
  · subst ht
    simp [getAccessToken, hA, hF, hE, hFe, hBuf2, hR]
  · subst hm
    simp [getAccessToken, hA, hF, hE, hFe, hBuf2, hR]
  · simp [getAccessToken, hA, hF, hE, hFe, hBuf2, hR]

/-- C8 witness: an access token expiring now with a valid refresh token and
a successful refresh outcome. -/
theorem C8_get_access_token_refresh_witness :
    getAccessToken
        { accessToken := some "A".toList, refreshToken := some "R".toList,
          expiresAt := some "E".toList }
        0 (fun _ => 0)
        (Except.ok { accessToken := some "NA".toList, refreshToken := some "NR".toList,
                     expiresIn := 3600, tokenType := "Bearer".toList })
      = { result := some "NA".toList, warned := false, loggedError := false,
          refreshCalls := 1,
          stored := some (some "NA".toList, some "NR".toList, 3600) } := by
  exact ((C8_get_access_token_refresh
    { accessToken := some "A".toList, refreshToken := some "R".toList,
      expiresAt := some "E".toList }
    0 (fun _ => 0)
    (Except.ok { accessToken := some "NA".toList, refreshToken := some "NR".toList,
                 expiresIn := 3600, tokenType := "Bearer".toList })
    "E".toList rfl rfl rfl (by decide)).1 rfl).1 _ rfl

/-! ## The background polling loop -/

theorem pollLoopGo_all_pending (polls : Nat → PollOutcome) :
    ∀ fuel attempt, (∀ i, attempt ≤ i → i < attempt + fuel → polls i = PollOutcome.pending) →
      pollLoopGo polls attempt fuel =
        { attempts := attempt + fuel,
          finalState := { status := OAuthStatus.error, verificationUrl := [], userCode := [],
                          errorMessage := timeoutMessage },
          stored := none } := by
  intro fuel
  induction fuel with
  | zero => intro attempt _; simp [pollLoopGo]
  | succ n ih =>
    intro attempt h
    have hp : polls attempt = PollOutcome.pending :=
      h attempt (Nat.le_refl attempt) (by omega)
    have := ih (attempt + 1) (fun i h1 h2 => h i (by omega) (by omega))
    simp only [pollLoopGo, hp]
    rw [this]
    have : attempt + 1 + n = attempt + (n + 1) := by omega
    rw [this]

theorem pollLoopGo_stops_success (polls : Nat → PollOutcome) :
    ∀ fuel attempt j t, attempt ≤ j → j < attempt + fuel →
      (∀ i, attempt ≤ i → i < j → polls i = PollOutcome.pending) →
      polls j = PollOutcome.success t →
      pollLoopGo polls attempt fuel =
        { attempts := j + 1,
          finalState := { status := OAuthStatus.connected, verificationUrl := [],
                          userCode := [], errorMessage := [] },
          stored := some (t.accessToken, t.refreshToken, t.expiresIn) } := by
  intro fuel
  induction fuel with
  | zero => intro attempt j t h1 h2 _ _; omega
  | succ n ih =>
    intro attempt j t h1 h2 hpend hj
    rcases Nat.eq_or_lt_of_le h1 with heq | hlt
    · subst heq
      simp [pollLoopGo, hj]
    · have hp : polls attempt = PollOutcome.pending :=
        hpend attempt (Nat.le_refl attempt) hlt
      simp only [pollLoopGo, hp]
      exact ih (attempt + 1) j t (by omega) (by omega)
        (fun i hi1 hi2 => hpend i (by omega) hi2) hj

theorem pollLoopGo_stops_failure (polls : Nat → PollOutcome) :
    ∀ fuel attempt j m, attempt ≤ j → j < attempt + fuel →
      (∀ i, attempt ≤ i → i < j → polls i = PollOutcome.pending) →
      polls j = PollOutcome.failure m →
      pollLoopGo polls attempt fuel =
        { attempts := j + 1,
          finalState := { status := OAuthStatus.error, verificationUrl := [],
                          userCode := [], errorMessage := m },
          stored := none } := by
  intro fuel
  induction fuel with
  | zero => intro attempt j m h1 h2 _ _; omega
  | succ n ih =>
    intro attempt j m h1 h2 hpend hj
    rcases Nat.eq_or_lt_of_le h1 with heq | hlt
    · subst heq
      simp [pollLoopGo, hj]
    · have hp : polls attempt = PollOutcome.pending :=
        hpend attempt (Nat.le_refl attempt) hlt
      simp only [pollLoopGo, hp]
      exact ih (attempt + 1) j m (by omega) (by omega)
        (fun i hi1 hi2 => hpend i (by omega) hi2) hj

/-- C9: if every poll returns the pending result, the background loop stops
after exactly the sixty attempts of the budget and sets the error state with
the timeout message; it stops right after the first successful token,
persisting it and setting the connected state; and it stops right after the
first thrown poll error, setting the error state with that message. -/
theorem C9_poll_loop_termination (polls : Nat → PollOutcome) :
    ((∀ i, i < MAX_POLL_ATTEMPTS → polls i = PollOutcome.pending) →
      pollInBackground polls =
        { attempts := MAX_POLL_ATTEMPTS,
          finalState := { status := OAuthStatus.error, verificationUrl := [], userCode := [],
                          errorMessage := timeoutMessage },
          stored := none }) ∧
    (∀ j t, j < MAX_POLL_ATTEMPTS → (∀ i, i < j → polls i = PollOutcome.pending) →
      polls j = PollOutcome.success t →
      pollInBackground polls =
        { attempts := j + 1,
          finalState := { status := OAuthStatus.connected, verificationUrl := [],
                          userCode := [], errorMessage := [] },
          stored := some (t.accessToken, t.refreshToken, t.expiresIn) }) ∧
    (∀ j m, j < MAX_POLL_ATTEMPTS → (∀ i, i < j → polls i = PollOutcome.pending) →
      polls j = PollOutcome.failure m →
      pollInBackground polls =
        { attempts := j + 1,
          finalState := { status := OAuthStatus.error, verificationUrl := [],
                          userCode := [], errorMessage := m },
          stored := none }) := by
  refine ⟨fun h => ?_, fun j t hj hpend hsucc => ?_, fun j m hj hpend hfail => ?_⟩
  · have := pollLoopGo_all_pending polls MAX_POLL_ATTEMPTS 0
      (fun i _ h2 => h i (by omega))
    simpa using this
  · exact pollLoopGo_stops_success polls MAX_POLL_ATTEMPTS 0 j t (Nat.zero_le j)
      (by omega) (fun i _ hi2 => hpend i hi2) hsucc
  · exact pollLoopGo_stops_failure polls MAX_POLL_ATTEMPTS 0 j m (Nat.zero_le j)
      (by omega) (fun i _ hi2 => hpend i hi2) hfail

/-- C9 witness: the always-pending poll sequence times out after sixty
attempts. -/
theorem C9_poll_loop_termination_witness :
    pollInBackground (fun _ => PollOutcome.pending) =
      { attempts := MAX_POLL_ATTEMPTS,
        finalState := { status := OAuthStatus.error, verificationUrl := [], userCode := [],
                        errorMessage := timeoutMessage },
        stored := none } :=
  (C9_poll_loop_termination (fun _ => PollOutcome.pending)).1 (fun _ _ => rfl)

/-! ## Error events terminate the stream -/

/-- Invariant relating a processing step to the state it started from:
either the halted flag is unchanged and no error chat event was emitted, or
the step ends halted and its output is some error-free prefix followed by a
single final error chat event. -/
def HaltSpec (st : TranslatorState) (r : TranslatorState × List ChatEvent) : Prop :=
  (r.1.halted = st.halted ∧ ∀ m, ChatEvent.errorEvent m ∉ r.2) ∨
  (r.1.halted = true ∧ ∃ pre m, r.2 = pre ++ [ChatEvent.errorEvent m] ∧
    ∀ m', ChatEvent.errorEvent m' ∉ pre)

theorem haltSpec_comp (st : TranslatorState) (r1 r2 : TranslatorState × List ChatEvent)
    (h1 : HaltSpec st r1) (h2 : HaltSpec r1.1 r2)
    (hhalt : r1.1.halted = true → r2 = (r1.1, [])) :
    HaltSpec st (r2.1, r1.2 ++ r2.2) := by
  rcases h1 with ⟨ha, hb⟩ | ⟨ha, pre, m, heq, hpre⟩
  · rcases h2 with ⟨hc, hd⟩ | ⟨hc, pre2, m2, heq2, hpre2⟩
    · left
      refine ⟨by rw [hc, ha], fun m hmem => ?_⟩
      rcases List.mem_append.mp hmem with h | h
      · exact hb m h
      · exact hd m h
    · right
      refine ⟨hc, r1.2 ++ pre2, m2, by rw [heq2, List.append_assoc], fun m' hm' => ?_⟩
      rcases List.mem_append.mp hm' with h | h
      · exact hb m' h
      · exact hpre2 m' h
  · have h0 := hhalt ha
    right
    refine ⟨by rw [h0]; exact ha, pre, m, ?_, hpre⟩
    rw [h0]
    simp [heq]

theorem processEvent_halt_spec (st : TranslatorState) (e : OpenAIStreamEvent) :
    HaltSpec st (processEvent st e) := by
  cases e
  case errorEvent m => exact Or.inr ⟨rfl, [], m, rfl, by simp⟩
  all_goals
    left
    constructor
    · simp only [processEvent]
      repeat' split
      all_goals rfl
    · intro m
      simp only [processEvent]
      repeat' split
      all_goals simp

theorem handleLine_halt_spec (st : TranslatorState) (line : List Char) :
    HaltSpec st (handleLine st line) := by
  unfold handleLine
  split
  · exact Or.inl ⟨rfl, by simp⟩
  · cases hp : parseSSEEvent line with
    | none => exact Or.inl ⟨rfl, by simp⟩
    | some e => exact processEvent_halt_spec st e

theorem processPieces_halted (st : TranslatorState) (ps : List (List Char))
    (h : st.halted = true) : processPieces st ps = (st, []) := by
  cases ps with
  | nil => rfl
  | cons p rest =>
    cases rest with
    | nil => simp [processPieces, h]
    | cons q ps' => simp [processPieces, h]

theorem processPieces_halt_spec (ps : List (List Char)) :
    ∀ st, HaltSpec st (processPieces st ps) := by
  induction ps with
  | nil => intro st; exact Or.inl ⟨rfl, by simp [processPieces]⟩
  | cons p rest ih =>
    intro st
    cases rest with
    | nil =>
      by_cases hh : st.halted = true
      · rw [processPieces_halted st [p] hh]
        exact Or.inl ⟨rfl, by simp⟩
      · simp only [processPieces, if_neg hh]
        split
        · exact Or.inl ⟨rfl, by simp⟩
        · exact handleLine_halt_spec st p
    | cons q ps' =>
      by_cases hh : st.halted = true
      · rw [processPieces_halted st (p :: q :: ps') hh]
        exact Or.inl ⟨rfl, by simp⟩
      · have hred : processPieces st (p :: q :: ps')
            = ((processPieces (handleLine st p).1 (q :: ps')).1,
               (handleLine st p).2 ++ (processPieces (handleLine st p).1 (q :: ps')).2) := by
          simp only [processPieces, if_neg hh]
        rw [hred]
        exact haltSpec_comp st (handleLine st p) (processPieces (handleLine st p).1 (q :: ps'))
          (handleLine_halt_spec st p) (ih (handleLine st p).1)
          (fun hx => processPieces_halted _ _ hx)

theorem handleChunk_halt_spec (st : TranslatorState) (chunk : List Char) :
    HaltSpec st (handleChunk st chunk) := by
  unfold handleChunk
  split
  · exact Or.inl ⟨rfl, by simp⟩
  · exact processPieces_halt_spec (splitNl (st.buffer ++ chunk)) { st with buffer := [] }

theorem handleChunk_halted (st : TranslatorState) (chunk : List Char)
    (h : st.halted = true) : handleChunk st chunk = (st, []) := by
  simp [handleChunk, h]

theorem runChunks_halted (cs : List (List Char)) :
    ∀ st, st.halted = true → runChunks st cs = (st, []) := by
  induction cs with
  | nil => intro st _; rfl
  | cons c cs' ih =>
    intro st h
    have h1 : handleChunk st c = (st, []) := handleChunk_halted st c h
    show ((runChunks (handleChunk st c).1 cs').1,
      (handleChunk st c).2 ++ (runChunks (handleChunk st c).1 cs').2) = (st, [])
    rw [h1]
    simpa using ih st h

theorem runChunks_halt_spec (cs : List (List Char)) :
    ∀ st, HaltSpec st (runChunks st cs) := by
  induction cs with
  | nil => intro st; exact Or.inl ⟨rfl, by simp [runChunks]⟩
  | cons c cs' ih =>
    intro st
    have hred : runChunks st (c :: cs')
        = ((runChunks (handleChunk st c).1 cs').1,
           (handleChunk st c).2 ++ (runChunks (handleChunk st c).1 cs').2) := rfl
    rw [hred]
    exact haltSpec_comp st (handleChunk st c) (runChunks (handleChunk st c).1 cs')
      (handleChunk_halt_spec st c) (ih (handleChunk st c).1)
      (fun hx => runChunks_halted cs' (handleChunk st c).1 hx)

/-- C5: after streamChat emits an error chat event, the generated sequence
ends: an error event can only be the last element of the emitted sequence,
whatever chunks remain unread. -/
theorem C5_error_terminates_stream (chunks : List (List Char))
    (l1 l2 : List ChatEvent) (m : List Char)
    (h : streamChatEvents chunks = l1 ++ ChatEvent.errorEvent m :: l2) : l2 = [] := by
  have hs := runChunks_halt_spec chunks initialState
  rcases hr : runChunks initialState chunks with ⟨stf, out⟩
  rw [hr] at hs
  simp only [streamChatEvents] at h
  rw [hr] at h
  rcases hs with ⟨ha, hb⟩ | ⟨ha, pre, m0, heq, hpre⟩
  · have hfalse : stf.halted = false := ha
    rw [if_neg (by simp [hfalse])] at h
    have hmem : ChatEvent.errorEvent m ∈ out ++ [ChatEvent.done
        (if !(jsTrim stf.buffer).isEmpty then
          match parseSSEEvent stf.buffer with
          | some (.responseCompleted (some u)) => some ⟨u.input_tokens, u.output_tokens⟩
          | some _ => stf.usage
          | none => stf.usage
        else stf.usage)] := by
      rw [h]
      simp
    rcases List.mem_append.mp hmem with hmm | hmm
    · exact absurd hmm (hb m)
    · simp at hmm
  · rw [if_pos ha] at h
    rcases List.eq_nil_or_concat l2 with hnil | ⟨l2', x, hcat⟩
    · exact hnil
    · exfalso
      subst hcat
      rw [heq] at h
      have hre : pre ++ [ChatEvent.errorEvent m0]
          = (l1 ++ ChatEvent.errorEvent m :: l2') ++ [x] := by
        rw [h]
        simp
      obtain ⟨hpe, _⟩ := List.append_inj' hre rfl
      exact hpre m (by simp [hpe])

/-- C5 witness: an error event followed by a further unread chunk yields the
error as the final event, with the trailing decomposition empty. -/
theorem C5_error_terminates_stream_witness : ([] : List ChatEvent) = [] :=
  C5_error_terminates_stream
    ["data: \x7b\"type\":\"error\",\"message\":\"boom\"\x7d\n".toList,
     "data: \x7b\"type\":\"response.output_text.delta\",\"delta\":\"hi\"\x7d\n".toList]
    [] [] "boom".toList (by rfl)

end OpenAIExt
